import Mathlib

/-!
Verification of the crypto analytics ETL (src/etl/API CoinGecko.py).

The pandas dataframes are modelled as lists of records, prices as rationals,
and pandas NaN as `Option.none` in the columns where a NaN can occur.
Stateful pieces (HTTP retries, the metadata CSV snapshot) are modelled by
explicit parameters: a simulated response stream for the network and an
optional in-memory snapshot for the CSV file.
-/

namespace CryptoETL

/-- One normalized price observation, the row shape produced by
`fetch_market_chart` (columns date, coin_id, vs_currency, price).
The date is a day count (epoch milliseconds divided by 86400000). -/
structure PriceRow where
  date : ℕ
  coin_id : String
  vs_currency : String
  price : ℚ
deriving DecidableEq

/-- One output row of `compute_metrics`: the input columns plus the derived
columns.  `cum_return` is an `Option` because the code never applies
`fillna` to it, so the NaN produced at the first row of each asset survives
into the output. -/
structure MetricRow where
  date : ℕ
  coin_id : String
  vs_currency : String
  price : ℚ
  daily_return : ℚ
  pct_change : ℚ
  ma_7 : ℚ
  ma_30 : ℚ
  cum_return : Option ℚ
  rolling_max_price : ℚ
  drawdown : ℚ
deriving DecidableEq

/-- Mean of a list of rationals (pandas Series.mean over a nonempty window). -/
def meanQ (l : List ℚ) : ℚ := l.sum / (l.length : ℚ)

/-- Left fold of `max` with an initial value; the running maximum used by the
pandas `cummax` calls. -/
def foldMax (d : ℚ) (l : List ℚ) : ℚ := l.foldl max d

/-- pandas `groupby("coin_id")["price"].shift(1)` evaluated at the current
row: the previous price of the same asset, `none` (NaN) at the first row of
the asset.  `prev` is the list of the earlier prices of the asset, in frame
order. -/
def priceLag (prev : List ℚ) : Option ℚ := prev.getLast?

/-- Line 134, `df["price"] / df["price_lag"] - 1`, before the `fillna` of
line 148: NaN exactly where the lag is NaN. -/
def dailyReturn0 (prev : List ℚ) (p : ℚ) : Option ℚ :=
  (priceLag prev).map (fun pl => p / pl - 1)

/-- The consecutive-ratio returns `l[k+1]/l[k] - 1` of a price list; these
are the non-NaN entries of the per-asset daily_return series. -/
def pairwiseReturns : List ℚ → List ℚ
  | a :: b :: t => (b / a - 1) :: pairwiseReturns (b :: t)
  | _ => []

/-- Line 140, `(1 + s).cumprod() - 1` evaluated at the last position of the
asset prefix, where `s` is the daily_return series of the asset before any
`fillna`.  pandas `cumprod` runs with `skipna=True`: the NaN at the first
position of the group stays NaN in the output and is skipped afterwards, so
the value at a later position is the product of the non-NaN factors only. -/
def cumReturn (prev : List ℚ) (p : ℚ) : Option ℚ :=
  match prev with
  | [] => none
  | _ :: _ => some (((pairwiseReturns (prev ++ [p])).map (fun r => 1 + r)).prod - 1)

/-- Lines 137 and 138, `rolling(w, min_periods=1).mean()` at the last
position of the asset prefix: the mean of the up to `w` most recent prices
of the asset. -/
def rollingMean (w : ℕ) (prev : List ℚ) (p : ℚ) : ℚ :=
  meanQ (((prev ++ [p]).reverse).take w)

/-- Line 145, `groupby("coin_id")["price"].transform(cummax)` at the last
position of the asset prefix. -/
def rollingMaxPrice (prev : List ℚ) (p : ℚ) : ℚ := foldMax p prev

/-- Line 143, `series.cummax()` on the UNGROUPED price column, evaluated at
the current row: the running maximum over the whole frame so far, across
assets.  `seenPrices` is every earlier price of the frame, any asset. -/
def globalCummax (seenPrices : List ℚ) (p : ℚ) : ℚ := foldMax p seenPrices

/-- Lines 142-146: the nested `drawdown` helper is applied to `df["price"]`
without any groupby, so its `cummax` ranges over the whole frame. -/
def drawdownAt (seenPrices : List ℚ) (p : ℚ) : ℚ :=
  (p - globalCummax seenPrices p) / globalCummax seenPrices p

/-- The per-asset derived columns of one row, every derived column except
`drawdown` (which the code derives from the ungrouped price column). -/
structure AssetCols where
  daily_return : ℚ
  pct_change : ℚ
  ma_7 : ℚ
  ma_30 : ℚ
  cum_return : Option ℚ
  rolling_max_price : ℚ
deriving DecidableEq

/-- The per-asset columns of the row whose asset has earlier prices `prev`
and current price `p`.  `daily_return` and `pct_change` carry the
`fillna(0.0)` of lines 148-149; `cum_return` does not. -/
def assetCols (prev : List ℚ) (p : ℚ) : AssetCols :=
  { daily_return := (dailyReturn0 prev p).getD 0
    pct_change := ((dailyReturn0 prev p).map (fun x => x * 100)).getD 0
    ma_7 := rollingMean 7 prev p
    ma_30 := rollingMean 30 prev p
    cum_return := cumReturn prev p
    rolling_max_price := rollingMaxPrice prev p }

/-- Projection of an output row onto its per-asset derived columns. -/
def MetricRow.assetCols (m : MetricRow) : AssetCols :=
  ⟨m.daily_return, m.pct_change, m.ma_7, m.ma_30, m.cum_return, m.rolling_max_price⟩

/-- One output row of `compute_metrics`; `seen` is the frame strictly before
the current row `r`, in frame order.  All grouped columns are computed from
the prices of the rows of `seen` with the same coin_id; `drawdown` is
computed from all of `seen`. -/
def computeOne (seen : List PriceRow) (r : PriceRow) : MetricRow :=
  let prev := (seen.filter (fun s => decide (s.coin_id = r.coin_id))).map (fun s => s.price)
  let cols := assetCols prev r.price
  { date := r.date
    coin_id := r.coin_id
    vs_currency := r.vs_currency
    price := r.price
    daily_return := cols.daily_return
    pct_change := cols.pct_change
    ma_7 := cols.ma_7
    ma_30 := cols.ma_30
    cum_return := cols.cum_return
    rolling_max_price := cols.rolling_max_price
    drawdown := drawdownAt (seen.map (fun s => s.price)) r.price }

/-- Row-by-row accumulation over the frame; pandas computes each derived
column for the whole frame at once, which agrees with this per-row view
because every groupby transform used (shift, rolling, cumprod, cummax) only
reads the group prefix up to the current row. -/
def computeMetricsGo (seen : List PriceRow) : List PriceRow → List MetricRow
  | [] => []
  | r :: rest => computeOne seen r :: computeMetricsGo (seen ++ [r]) rest

/-- `compute_metrics` (lines 130-150): adds the derived columns and drops
the helper column price_lag; the input frame is copied, not mutated. -/
def compute_metrics (df : List PriceRow) : List MetricRow :=
  computeMetricsGo [] df

/-- The single-asset analogue of `computeMetricsGo` on a bare price list. -/
def seriesColsGo (prev : List ℚ) : List ℚ → List AssetCols
  | [] => []
  | p :: rest => assetCols prev p :: seriesColsGo (prev ++ [p]) rest

/-- The per-asset derived columns of a single asset price series. -/
def seriesCols (ps : List ℚ) : List AssetCols := seriesColsGo [] ps

/-- The prices of asset `c` in frame order. -/
def assetPrices (df : List PriceRow) (c : String) : List ℚ :=
  (df.filter (fun s => decide (s.coin_id = c))).map (fun s => s.price)

/-- The output rows of `compute_metrics` belonging to asset `c`. -/
def assetRows (df : List PriceRow) (c : String) : List MetricRow :=
  (compute_metrics df).filter (fun m => decide (m.coin_id = c))

/-- A placeholder row used as the default of `List.getD`; all indexing
hypotheses keep the index in range, so its value never matters. -/
def mrDefault : MetricRow :=
  ⟨0, "", "", 0, 0, 0, 0, 0, none, 0, 0⟩

/-- Projection of an output row back to the input columns. -/
def MetricRow.toPriceRow (m : MetricRow) : PriceRow :=
  ⟨m.date, m.coin_id, m.vs_currency, m.price⟩

/-- A placeholder per-asset column record, the `getD` default. -/
def acDefault : AssetCols := ⟨0, 0, 0, 0, none, 0⟩

/-! ## The retrying fetcher, `safe_request` (lines 26-47) -/

/-- One simulated HTTP interaction: an HTTP response with a status code and a
parsed payload, or a network-level exception from `requests.get` (timeout,
connection reset, DNS failure). -/
inductive Resp where
  | status (code : ℕ) (payload : String)
  | netError
deriving DecidableEq

/-- The observable outcome of `safe_request`.  The code has no other exit:
the HTTPError raised by `raise_for_status` on a 4xx or 5xx status is a
`requests.RequestException` and is caught by the `except` clause of the same
loop body, so it can never escape the loop. -/
inductive FetchResult where
  | success (payload : String)
  | exhausted
deriving DecidableEq

/-- Line 33: the statuses the code treats as transient. -/
def transientStatus (c : ℕ) : Bool :=
  c == 429 || c == 500 || c == 502 || c == 503 || c == 504

/-- `Response.raise_for_status` raises `requests.HTTPError` exactly for
status codes in 4xx and 5xx. -/
def raisesForStatus (c : ℕ) : Bool := 400 ≤ c && c < 600

/-- Lines 34-36 and 42-44: `max(1.0, backoff ** i * jitter)`. -/
def waitTime (backoff : ℚ) (jitter : ℚ) (i : ℕ) : ℚ := max 1 (backoff ^ i * jitter)

/-- The retry loop of `safe_request` over a simulated response stream
(`resp i` is what attempt `i` sees) and a jitter stream (`jit i` is what
`random.uniform(0.5, 1.5)` returns on attempt `i`).  Returns the outcome and
the list of sleep durations, in order.  A 4xx or 5xx status outside the
transient set reaches `r.raise_for_status()`, whose HTTPError is caught by
the same `except requests.RequestException` clause as a network error:
sleep, then next attempt.  A non-200 status outside 4xx and 5xx makes
`raise_for_status` a no-op, so the loop moves on without sleeping. -/
def safeRequestGo (resp : ℕ → Resp) (jit : ℕ → ℚ) (backoff : ℚ) :
    ℕ → ℕ → FetchResult × List ℚ
  | 0, _ => (.exhausted, [])
  | fuel + 1, i =>
    match resp i with
    | .status c payload =>
      if c == 200 then (.success payload, [])
      else if transientStatus c then
        let rec' := safeRequestGo resp jit backoff fuel (i + 1)
        (rec'.1, waitTime backoff (jit i) i :: rec'.2)
      else if raisesForStatus c then
        let rec' := safeRequestGo resp jit backoff fuel (i + 1)
        (rec'.1, waitTime backoff (jit i) i :: rec'.2)
      else
        safeRequestGo resp jit backoff fuel (i + 1)
    | .netError =>
      let rec' := safeRequestGo resp jit backoff fuel (i + 1)
      (rec'.1, waitTime backoff (jit i) i :: rec'.2)

/-- `safe_request` (lines 26-47): run the loop for `max_retries` attempts
starting at attempt 0; falling out of the loop is the terminal RuntimeError
(`FetchResult.exhausted`). -/
def safe_request (resp : ℕ → Resp) (jit : ℕ → ℚ) (max_retries : ℕ) (backoff : ℚ) :
    FetchResult × List ℚ :=
  safeRequestGo resp jit backoff max_retries 0

/-! ## Generic dedup, pandas `drop_duplicates` on a key subset -/

/-- pandas `drop_duplicates(subset, keep="first")`: keep a row iff its key
has not been kept before; `seen` is the list of keys already kept. -/
def keepFirstByGo {α κ : Type} (key : α → κ) [DecidableEq κ] (seen : List κ) :
    List α → List α
  | [] => []
  | r :: t =>
    if key r ∈ seen then keepFirstByGo key seen t
    else r :: keepFirstByGo key (key r :: seen) t

/-- pandas `drop_duplicates(subset)` with the default `keep="first"`. -/
def keepFirstBy {α κ : Type} (key : α → κ) [DecidableEq κ] (l : List α) : List α :=
  keepFirstByGo key [] l

/-- pandas `drop_duplicates(subset, keep="last")`: keep a row iff no later
row carries the same key. -/
def keepLastBy {α κ : Type} (key : α → κ) [DecidableEq κ] : List α → List α
  | [] => []
  | r :: t =>
    if t.any (fun s => decide (key s = key r)) then keepLastBy key t
    else r :: keepLastBy key t

/-! ## The market chart loader, `fetch_market_chart` (lines 111-128) -/

/-- Milliseconds per day; `pd.to_datetime(ts, unit="ms").dt.date` truncates
an epoch-millisecond timestamp to the day `ts / 86400000`. -/
def msPerDay : ℕ := 86400000

/-- The lexicographic (coin_id, date) order of
`sort_values(["coin_id", "date"])`. -/
def rowLE (a b : PriceRow) : Prop :=
  a.coin_id < b.coin_id ∨ (a.coin_id = b.coin_id ∧ a.date ≤ b.date)

instance : DecidableRel rowLE := fun a b => by
  unfold rowLE
  infer_instance

/-- `fetch_market_chart` (lines 111-128), modelled on the `prices` array of
the parsed response: an empty array gives an empty frame; otherwise build
(date, coin_id, vs_currency, price) rows with the date truncated to day
granularity, sort by (coin_id, date) — modelled as a stable sort — and drop
duplicate (coin_id, date) keys with the pandas default `keep="first"`. -/
def fetch_market_chart (coin_id vs_currency : String) (pricePairs : List (ℕ × ℚ)) :
    List PriceRow :=
  if pricePairs.isEmpty then []
  else
    let df := pricePairs.map (fun pr => PriceRow.mk (pr.1 / msPerDay) coin_id vs_currency pr.2)
    let sorted := List.insertionSort rowLE df
    keepFirstBy (fun r => (r.coin_id, r.date)) sorted

/-! ## The metadata cache, `fetch_coin_metadata` (lines 50-108) -/

/-- One row of the persisted metadata frame (columns coin_id, symbol, name,
market_cap_rank; the rank is NaN when unknown). -/
structure MetaRow where
  coin_id : String
  symbol : String
  name : String
  market_cap_rank : Option ℕ
deriving DecidableEq

/-- One entry of the `/coins/markets` response used by the loop of
lines 81-87. -/
structure ApiMarketRow where
  id : String
  symbol : String
  name : String
  market_cap_rank : Option ℕ
deriving DecidableEq

/-- Python `str.title()` on a character list: an alphabetic character is
uppercased when the preceding character is not alphabetic and lowercased
otherwise; `prevAlpha` records whether the previous character was
alphabetic. -/
def pyTitleGo (prevAlpha : Bool) : List Char → List Char
  | [] => []
  | ch :: t =>
    if ch.isAlpha then
      (if prevAlpha then ch.toLower else ch.toUpper) :: pyTitleGo true t
    else
      ch :: pyTitleGo false t

/-- Python `str.title()`; strings are handled through their character
lists. -/
def pyTitle (l : List Char) : String := String.mk (pyTitleGo false l)

/-- The record `_fallback_meta_from_ids` synthesizes for one id (lines
53-58): `cid[:4].upper()` is the first four characters of the id uppercased,
the name is the id with each hyphen replaced by a space and then
title-cased, and the rank is NaN.  The Python string operations act per
character and are modelled on the character list of the id. -/
def fallbackRow (cid : String) : MetaRow :=
  { coin_id := cid
    symbol := String.mk ((cid.data.take 4).map Char.toUpper)
    name := pyTitle (cid.data.map (fun ch => if ch == '-' then ' ' else ch))
    market_cap_rank := none }

/-- `_fallback_meta_from_ids` (lines 50-59). -/
def fallback_meta_from_ids (coin_ids : List String) : List MetaRow :=
  coin_ids.map fallbackRow

/-- The row-shaping loop of lines 80-88 applied to the parsed
`/coins/markets` response. -/
def metaRowsOfApi (data : List ApiMarketRow) : List MetaRow :=
  data.map (fun row => ⟨row.id, row.symbol, row.name, row.market_cap_rank⟩)

/-- The network path of `fetch_coin_metadata` (lines 75-108), taken when the
cache short-circuit of lines 63-71 does not fire.  `snapshot` is the content
of META_CSV (`none` when the file is absent or unreadable) and `apiResult`
the outcome of `safe_request` on `/coins/markets` (`Except.error` when it
raises).  On success the fresh rows are concatenated after the snapshot and
duplicates dropped with `keep="last"` (the fresh row wins); on failure the
synthesized rows are concatenated after the snapshot and duplicates dropped
with `keep="first"` (the persisted row wins).  The boolean records that the
network was consulted. -/
def fetchCoinMetadataNet (coin_ids : List String) (snapshot : Option (List MetaRow))
    (apiResult : Except Unit (List ApiMarketRow)) : List MetaRow × Bool :=
  match apiResult with
  | .ok data =>
    (match snapshot with
     | some old => keepLastBy MetaRow.coin_id (old ++ metaRowsOfApi data)
     | none => metaRowsOfApi data, true)
  | .error _ =>
    (match snapshot with
     | some old => keepFirstBy MetaRow.coin_id (old ++ fallback_meta_from_ids coin_ids)
     | none => fallback_meta_from_ids coin_ids, true)

/-- `fetch_coin_metadata` (lines 61-108).  Lines 63-71: when META_CSV is
readable and no requested id is missing from it, return it unchanged with no
network call; otherwise take the network path.  The second component records
whether the network was consulted. -/
def fetch_coin_metadata (coin_ids : List String) (snapshot : Option (List MetaRow))
    (apiResult : Except Unit (List ApiMarketRow)) : List MetaRow × Bool :=
  match snapshot with
  | some meta_old =>
    if coin_ids.all (fun c => meta_old.any (fun r => decide (r.coin_id = c))) then
      (meta_old, false)
    else
      fetchCoinMetadataNet coin_ids snapshot apiResult
  | none => fetchCoinMetadataNet coin_ids snapshot apiResult

/-! ## Elementary lemmas about the helper functions -/

theorem foldMax_cons (d a : ℚ) (l : List ℚ) : foldMax d (a :: l) = foldMax (max d a) l := rfl

theorem le_foldMax_init (d : ℚ) : ∀ l : List ℚ, d ≤ foldMax d l
  | [] => le_refl d
  | a :: l => le_trans (le_max_left d a) (le_foldMax_init (max d a) l)

theorem le_foldMax_of_mem {x : ℚ} (d : ℚ) : ∀ {l : List ℚ}, x ∈ l → x ≤ foldMax d l
  | a :: l, h => by
    rcases List.mem_cons.mp h with h | h
    · subst h
      exact le_trans (le_max_right d x) (le_foldMax_init _ l)
    · exact le_foldMax_of_mem (max d a) h

theorem foldMax_mem_or_init (d : ℚ) : ∀ l : List ℚ, foldMax d l = d ∨ foldMax d l ∈ l
  | [] => Or.inl rfl
  | a :: l => by
    rcases foldMax_mem_or_init (max d a) l with h | h
    · rcases max_cases d a with ⟨hm, _⟩ | ⟨hm, _⟩
      · exact Or.inl (by rw [foldMax_cons, h, hm])
      · exact Or.inr (by rw [foldMax_cons, h, hm]; exact List.mem_cons_self a l)
    · exact Or.inr (List.mem_cons_of_mem a h)

theorem foldMax_le {m d : ℚ} : ∀ {l : List ℚ}, d ≤ m → (∀ x ∈ l, x ≤ m) → foldMax d l ≤ m
  | [], hd, _ => hd
  | a :: l, hd, hl => by
    rw [foldMax_cons]
    exact foldMax_le (max_le hd (hl a (List.mem_cons_self a l)))
      (fun x hx => hl x (List.mem_cons_of_mem a hx))

theorem foldMax_append (d : ℚ) (l₁ l₂ : List ℚ) :
    foldMax d (l₁ ++ l₂) = foldMax (foldMax d l₁) l₂ := by
  simp [foldMax, List.foldl_append]

theorem pairwiseReturns_length : ∀ l : List ℚ, (pairwiseReturns l).length = l.length - 1
  | [] => rfl
  | [_] => rfl
  | a :: b :: t => by
    have ih := pairwiseReturns_length (b :: t)
    simp only [pairwiseReturns, List.length_cons] at ih ⊢
    omega

theorem pairwiseReturns_take :
    ∀ (l : List ℚ) (k : ℕ), pairwiseReturns (l.take (k + 1)) = (pairwiseReturns l).take k
  | [], _ => by simp [pairwiseReturns]
  | [a], k => by cases k <;> simp [pairwiseReturns]
  | _ :: _ :: _, 0 => by simp [pairwiseReturns]
  | a :: b :: t, k + 1 => by
    have ih := pairwiseReturns_take (b :: t) k
    simp only [List.take_succ_cons] at ih ⊢
    simp only [pairwiseReturns, ih, List.take_succ_cons]

theorem pairwiseReturns_getD :
    ∀ (l : List ℚ) (j : ℕ), j + 1 < l.length →
      (pairwiseReturns l).getD j 0 = l.getD (j + 1) 0 / l.getD j 0 - 1
  | [], j, h => by simp at h
  | [_], j, h => by simp at h
  | a :: b :: t, 0, _ => by simp [pairwiseReturns]
  | a :: b :: t, j + 1, h => by
    have ih := pairwiseReturns_getD (b :: t) j (by simpa using Nat.lt_of_succ_lt_succ h)
    simpa [pairwiseReturns] using ih

theorem take_eq_range_getD :
    ∀ (l : List ℚ) (k : ℕ), k ≤ l.length → l.take k = (List.range k).map (fun j => l.getD j 0)
  | _, 0, _ => by simp
  | [], k + 1, h => by simp at h
  | a :: t, k + 1, h => by
    have ih := take_eq_range_getD t k (by simpa using Nat.le_of_succ_le_succ h)
    simp only [List.take_succ_cons, List.range_succ_eq_map, List.map_cons, List.map_map]
    refine congrArg (a :: ·) ?_
    rw [ih]
    rfl

theorem take_append_getD {l : List ℚ} {k : ℕ} (h : k < l.length) :
    l.take k ++ [l.getD k 0] = l.take (k + 1) := by
  rw [List.take_succ]
  have : l[k]? = some (l.getD k 0) := by
    simp [List.getElem?_eq_getElem h, List.getD_eq_getElem?_getD, List.getElem?_eq_getElem h]
  rw [this]
  rfl

theorem getLast?_take {l : List ℚ} {k : ℕ} (h0 : 0 < k) (h : k ≤ l.length) :
    (l.take k).getLast? = some (l.getD (k - 1) 0) := by
  rw [List.getLast?_eq_getElem?]
  have hlen : (l.take k).length = k := by simp [Nat.min_eq_left h]
  rw [hlen]
  have hk1 : k - 1 < k := Nat.sub_lt h0 Nat.one_pos
  rw [List.getElem?_take_of_lt hk1]
  have hk1l : k - 1 < l.length := lt_of_lt_of_le hk1 h
  simp [List.getElem?_eq_getElem hk1l, List.getD_eq_getElem?_getD]

theorem getD_take_of_lt {l : List ℚ} {j k : ℕ} (h : j < k) :
    (l.take k).getD j 0 = l.getD j 0 := by
  simp [List.getD_eq_getElem?_getD, List.getElem?_take_of_lt h]

theorem getD_mem_take {l : List ℚ} {j k : ℕ} (hj : j < k) (hk : j < l.length) :
    l.getD j 0 ∈ l.take k := by
  refine List.getElem?_mem (n := j) ?_
  rw [List.getElem?_take_of_lt hj]
  simp [List.getElem?_eq_getElem hk, List.getD_eq_getElem?_getD]

theorem mem_take_succ_of_mem_take {x : ℚ} {l : List ℚ} {k : ℕ} (h : x ∈ l.take k) :
    x ∈ l.take (k + 1) := by
  rw [List.take_succ]
  exact List.mem_append_left _ h

theorem keepFirstByGo_filter {α κ : Type} (key : α → κ) [DecidableEq κ] (k : κ) :
    ∀ (l : List α) (seen : List κ),
      (keepFirstByGo key seen l).filter (fun r => decide (key r = k))
        = if k ∈ seen then [] else (l.filter (fun r => decide (key r = k))).take 1
  | [], seen => by simp [keepFirstByGo]
  | r :: t, seen => by
    by_cases hr : key r ∈ seen
    · rw [keepFirstByGo, if_pos hr, keepFirstByGo_filter key k t seen]
      by_cases hks : k ∈ seen
      · rw [if_pos hks, if_pos hks]
      · rw [if_neg hks, if_neg hks, List.filter_cons]
        have hrk : (decide (key r = k)) = false := by
          simp only [decide_eq_false_iff_not]
          intro he
          exact hks (he ▸ hr)
        rw [hrk]
        simp
    · rw [keepFirstByGo, if_neg hr, List.filter_cons]
      by_cases hk : key r = k
      · subst hk
        simp only [decide_eq_true_eq, if_pos rfl, if_true]
        rw [keepFirstByGo_filter key (key r) t (key r :: seen)]
        rw [if_pos (List.mem_cons_self (key r) seen), if_neg hr, List.filter_cons]
        simp
      · have hrk : (decide (key r = k)) = false := by simpa using hk
        rw [hrk]
        simp only [Bool.false_eq_true, if_false]
        rw [keepFirstByGo_filter key k t (key r :: seen)]
        have hmem : (k ∈ key r :: seen) ↔ (k ∈ seen) := by
          simp only [List.mem_cons]
          constructor
          · rintro (he | hs)
            · exact absurd he.symm hk
            · exact hs
          · exact Or.inr
        by_cases hks : k ∈ seen
        · rw [if_pos (hmem.mpr hks), if_pos hks]
        · rw [if_neg (fun h => hks (hmem.mp h)), if_neg hks, List.filter_cons, hrk]
          simp

theorem keepFirstBy_filter {α κ : Type} (key : α → κ) [DecidableEq κ] (k : κ) (l : List α) :
    (keepFirstBy key l).filter (fun r => decide (key r = k))
      = (l.filter (fun r => decide (key r = k))).take 1 := by
  rw [keepFirstBy, keepFirstByGo_filter key k l []]
  simp

theorem keepFirstByGo_subset {α κ : Type} (key : α → κ) [DecidableEq κ] :
    ∀ (l : List α) (seen : List κ) (x : α), x ∈ keepFirstByGo key seen l → x ∈ l
  | [], _, _, h => by simp [keepFirstByGo] at h
  | r :: t, seen, x, h => by
    rw [keepFirstByGo] at h
    by_cases hr : key r ∈ seen
    · rw [if_pos hr] at h
      exact List.mem_cons_of_mem r (keepFirstByGo_subset key t seen x h)
    · rw [if_neg hr] at h
      rcases List.mem_cons.mp h with he | ht
      · exact he ▸ List.mem_cons_self r t
      · exact List.mem_cons_of_mem r (keepFirstByGo_subset key t (key r :: seen) x ht)

theorem keepFirstBy_subset {α κ : Type} (key : α → κ) [DecidableEq κ] (l : List α) (x : α)
    (h : x ∈ keepFirstBy key l) : x ∈ l :=
  keepFirstByGo_subset key l [] x h

theorem filter_eq_self_singleton {l : List String} {c : String} (hnd : l.Nodup) (hc : c ∈ l) :
    l.filter (fun x => decide (x = c)) = [c] := by
  induction l with
  | nil => cases hc
  | cons a t ih =>
    rw [List.filter_cons]
    rcases List.mem_cons.mp hc with he | ht
    · have he2 : a = c := he.symm
      subst he2
      simp only [decide_eq_true_eq, if_pos rfl, if_true]
      have hat : a ∉ t := (List.nodup_cons.mp hnd).1
      have : t.filter (fun x => decide (x = a)) = [] := by
        rw [List.filter_eq_nil_iff]
        intro b hb
        simp only [decide_eq_true_eq]
        intro he3
        exact hat (he3 ▸ hb)
      rw [this]
    · have hac : a ≠ c := by
        intro he
        exact (List.nodup_cons.mp hnd).1 (he ▸ ht)
      have : (decide (a = c)) = false := by simpa using hac
      rw [this]
      simp only [Bool.false_eq_true, if_false]
      exact ih (List.nodup_cons.mp hnd).2 ht

/-! ## Factorization of `compute_metrics` into independent per-asset series -/

theorem computeOne_coin_id (seen : List PriceRow) (r : PriceRow) :
    (computeOne seen r).coin_id = r.coin_id := rfl

theorem computeOne_assetCols (seen : List PriceRow) (r : PriceRow) :
    (computeOne seen r).assetCols
      = assetCols ((seen.filter (fun s => decide (s.coin_id = r.coin_id))).map
          (fun s => s.price)) r.price := rfl

theorem computeMetricsGo_filter (c : String) :
    ∀ (rest seen : List PriceRow),
      ((computeMetricsGo seen rest).filter (fun m => decide (m.coin_id = c))).map
          MetricRow.assetCols
        = seriesColsGo ((seen.filter (fun s => decide (s.coin_id = c))).map (fun s => s.price))
            ((rest.filter (fun s => decide (s.coin_id = c))).map (fun s => s.price))
  | [], _ => rfl
  | r :: rest, seen => by
    have ih := computeMetricsGo_filter c rest (seen ++ [r])
    simp only [List.filter_append, List.map_append] at ih
    by_cases hc : r.coin_id = c
    · subst hc
      simp only [computeMetricsGo, List.filter_cons, computeOne_coin_id, decide_eq_true_eq,
        if_pos rfl, if_true, List.map_cons, List.map_nil, List.filter_nil] at ih ⊢
      rw [ih, computeOne_assetCols]
      simp [seriesColsGo]
    · simp only [computeMetricsGo, List.filter_cons, computeOne_coin_id, decide_eq_true_eq,
        if_neg hc, List.map_cons, List.map_nil, List.filter_nil] at ih ⊢
      rw [ih]
      simp [List.filter_cons, hc]

theorem compute_metrics_filter (df : List PriceRow) (c : String) :
    ((compute_metrics df).filter (fun m => decide (m.coin_id = c))).map MetricRow.assetCols
      = seriesCols (assetPrices df c) :=
  computeMetricsGo_filter c df []

theorem seriesColsGo_length : ∀ (ps prev : List ℚ), (seriesColsGo prev ps).length = ps.length
  | [], _ => rfl
  | p :: rest, prev => by
    simp [seriesColsGo, seriesColsGo_length rest (prev ++ [p])]

theorem seriesColsGo_getD :
    ∀ (ps prev : List ℚ) (k : ℕ), k < ps.length →
      (seriesColsGo prev ps).getD k acDefault
        = assetCols (prev ++ ps.take k) (ps.getD k 0)
  | [], _, _, h => by simp at h
  | p :: rest, prev, 0, _ => by simp [seriesColsGo]
  | p :: rest, prev, k + 1, h => by
    have ih := seriesColsGo_getD rest (prev ++ [p]) k (by simpa using Nat.lt_of_succ_lt_succ h)
    simp only [seriesColsGo, List.getD_cons_succ, List.take_succ_cons, ih,
      List.append_assoc, List.cons_append, List.nil_append]

theorem assetRows_length (df : List PriceRow) (c : String) :
    (assetRows df c).length = (assetPrices df c).length := by
  have h := congrArg List.length (compute_metrics_filter df c)
  simpa [assetRows, seriesCols, seriesColsGo_length] using h

theorem assetRows_getD_assetCols (df : List PriceRow) (c : String) (k : ℕ)
    (hk : k < (assetRows df c).length) :
    ((assetRows df c).getD k mrDefault).assetCols
      = assetCols ((assetPrices df c).take k) ((assetPrices df c).getD k 0) := by
  have hmap := congrArg (fun l => l.getD k acDefault) (compute_metrics_filter df c)
  have hk' : k < (assetPrices df c).length := by rw [← assetRows_length df c]; exact hk
  have hleft : ((assetRows df c).map MetricRow.assetCols).getD k acDefault
      = ((assetRows df c).getD k mrDefault).assetCols := by
    simp only [List.getD_eq_getElem?_getD, List.getElem?_map]
    rw [List.getElem?_eq_getElem hk]
    simp
  have hright := seriesColsGo_getD (assetPrices df c) [] k hk'
  simp only [seriesCols] at hmap
  simp only [assetRows] at hleft hmap ⊢
  rw [hleft] at hmap
  rw [hmap, hright]
  simp

/-! ## Row-level characterization of the per-asset columns -/

theorem assetRows_daily_return (df : List PriceRow) (c : String) (k : ℕ)
    (hk : k < (assetRows df c).length) :
    ((assetRows df c).getD k mrDefault).daily_return
      = if k = 0 then 0
        else (assetPrices df c).getD k 0 / (assetPrices df c).getD (k - 1) 0 - 1 := by
  have hac := assetRows_getD_assetCols df c k hk
  have hk' : k < (assetPrices df c).length := by rw [← assetRows_length df c]; exact hk
  have h1 : ((assetRows df c).getD k mrDefault).daily_return
      = (assetCols ((assetPrices df c).take k) ((assetPrices df c).getD k 0)).daily_return :=
    congrArg AssetCols.daily_return hac
  rw [h1]
  by_cases h0 : k = 0
  · subst h0
    simp [assetCols, dailyReturn0, priceLag]
  · have hpos : 0 < k := Nat.pos_of_ne_zero h0
    rw [if_neg h0]
    simp only [assetCols, dailyReturn0, priceLag]
    rw [getLast?_take hpos (le_of_lt hk')]
    simp

theorem assetRows_pct_change (df : List PriceRow) (c : String) (k : ℕ)
    (hk : k < (assetRows df c).length) :
    ((assetRows df c).getD k mrDefault).pct_change
      = ((assetRows df c).getD k mrDefault).daily_return * 100 := by
  have hac := assetRows_getD_assetCols df c k hk
  have hpc : ((assetRows df c).getD k mrDefault).pct_change
      = (assetCols ((assetPrices df c).take k) ((assetPrices df c).getD k 0)).pct_change :=
    congrArg AssetCols.pct_change hac
  have hdr : ((assetRows df c).getD k mrDefault).daily_return
      = (assetCols ((assetPrices df c).take k) ((assetPrices df c).getD k 0)).daily_return :=
    congrArg AssetCols.daily_return hac
  rw [hpc, hdr]
  simp only [assetCols]
  cases hd : dailyReturn0 ((assetPrices df c).take k) ((assetPrices df c).getD k 0) with
  | none => simp
  | some r => simp

theorem assetRows_rolling_max (df : List PriceRow) (c : String) (k : ℕ)
    (hk : k < (assetRows df c).length) :
    ((assetRows df c).getD k mrDefault).rolling_max_price
      = foldMax ((assetPrices df c).getD k 0) ((assetPrices df c).take k) :=
  congrArg AssetCols.rolling_max_price (assetRows_getD_assetCols df c k hk)

theorem assetRows_cum_return (df : List PriceRow) (c : String) (k : ℕ)
    (hk : k < (assetRows df c).length) :
    ((assetRows df c).getD k mrDefault).cum_return
      = if k = 0 then none
        else some (((pairwiseReturns ((assetPrices df c).take (k + 1))).map
            (fun r => 1 + r)).prod - 1) := by
  have hac := assetRows_getD_assetCols df c k hk
  have hk' : k < (assetPrices df c).length := by rw [← assetRows_length df c]; exact hk
  have h1 : ((assetRows df c).getD k mrDefault).cum_return
      = (assetCols ((assetPrices df c).take k) ((assetPrices df c).getD k 0)).cum_return :=
    congrArg AssetCols.cum_return hac
  rw [h1]
  by_cases h0 : k = 0
  · subst h0
    simp [assetCols, cumReturn]
  · have hpos : 0 < k := Nat.pos_of_ne_zero h0
    rw [if_neg h0]
    have htk : (assetPrices df c).take k ≠ [] := by
      have hlen : ((assetPrices df c).take k).length = k := by
        simp [Nat.min_eq_left (le_of_lt hk')]
      intro hnil
      rw [hnil] at hlen
      simp only [List.length_nil] at hlen
      omega
    obtain ⟨q, qs, hqs⟩ := List.exists_cons_of_ne_nil htk
    simp only [assetCols]
    rw [hqs]
    simp only [cumReturn]
    rw [← hqs, take_append_getD hk']

theorem assetRows_cum_return_prod (df : List PriceRow) (c : String) (k : ℕ)
    (hk : k < (assetRows df c).length) (hpos : 0 < k) :
    ((assetRows df c).getD k mrDefault).cum_return
      = some (((List.range k).map
          (fun j => 1 + ((assetRows df c).getD (j + 1) mrDefault).daily_return)).prod - 1) := by
  rw [assetRows_cum_return df c k hk, if_neg (Nat.pos_iff_ne_zero.mp hpos)]
  have hk' : k < (assetPrices df c).length := by rw [← assetRows_length df c]; exact hk
  have hprk : k ≤ (pairwiseReturns (assetPrices df c)).length := by
    rw [pairwiseReturns_length]
    omega
  rw [pairwiseReturns_take, take_eq_range_getD (pairwiseReturns (assetPrices df c)) k hprk,
    List.map_map]
  refine congrArg (fun l => some (List.prod l - 1)) ?_
  refine List.map_congr_left ?_
  intro j hj
  have hjk : j < k := List.mem_range.mp hj
  have hj1 : j + 1 < (assetRows df c).length := by
    have := assetRows_length df c
    omega
  rw [assetRows_daily_return df c (j + 1) hj1, if_neg (Nat.succ_ne_zero j)]
  simp only [Function.comp_apply]
  rw [pairwiseReturns_getD (assetPrices df c) j (by omega)]
  simp

theorem computeMetricsGo_toPriceRow :
    ∀ (rest seen : List PriceRow), (computeMetricsGo seen rest).map MetricRow.toPriceRow = rest
  | [], _ => rfl
  | r :: rest, seen => by
    simp only [computeMetricsGo, List.map_cons,
      computeMetricsGo_toPriceRow rest (seen ++ [r])]
    rfl

/-! ## Sample frames used to instantiate the per-asset theorems -/

/-- A three-row single-asset sample frame. -/
def dfA : List PriceRow :=
  [⟨0, "a", "usd", 10⟩, ⟨1, "a", "usd", 20⟩, ⟨2, "a", "usd", 5⟩]

/-- A two-asset sample frame: one bitcoin row, then one tether row. -/
def dfX : List PriceRow :=
  [⟨0, "bitcoin", "usd", 10⟩, ⟨0, "tether", "usd", 5⟩]

/-! ## The claims -/

/-- C10: `compute_metrics` only adds derived columns: every output row keeps
the date, coin_id, vs_currency and price of the corresponding input row, in
the same order and number.  The input itself is not mutated: line 132 copies
the frame, and the model is a pure function of the input list. -/
theorem C10_compute_metrics_preserves_input (df : List PriceRow) :
    (compute_metrics df).map MetricRow.toPriceRow = df :=
  computeMetricsGo_toPriceRow df []

/-- C1: refuted by the code.  `drawdown` is computed by applying the nested
helper to the ungrouped price column (line 146), so its running maximum
ranges over all assets.  On a frame with a bitcoin row at price 10 followed
by a tether row at price 5, the tether row gets drawdown -1/2 even though
its own per-asset running maximum (`rolling_max_price`) equals its price, so
the claimed formula `(price - rolling_max_price) / rolling_max_price` would
give 0; the tether drawdown depends on the bitcoin price. -/
theorem C1_drawdown_cross_asset_leak :
    ((compute_metrics dfX).getD 1 mrDefault).drawdown = -(1/2)
    ∧ ((compute_metrics dfX).getD 1 mrDefault).price = 5
    ∧ ((compute_metrics dfX).getD 1 mrDefault).rolling_max_price = 5
    ∧ ((compute_metrics dfX).getD 1 mrDefault).drawdown
        ≠ (((compute_metrics dfX).getD 1 mrDefault).price
              - ((compute_metrics dfX).getD 1 mrDefault).rolling_max_price)
            / ((compute_metrics dfX).getD 1 mrDefault).rolling_max_price := by
  have h1 : ((compute_metrics dfX).getD 1 mrDefault).drawdown = -(1/2) := by
    simp [dfX, compute_metrics, computeMetricsGo, computeOne, drawdownAt, globalCummax, foldMax]
    norm_num
  have h2 : ((compute_metrics dfX).getD 1 mrDefault).price = 5 := by
    simp [dfX, compute_metrics, computeMetricsGo, computeOne]
  have h3 : ((compute_metrics dfX).getD 1 mrDefault).rolling_max_price = 5 := by
    simp [dfX, compute_metrics, computeMetricsGo, computeOne, assetCols, rollingMaxPrice, foldMax]
  refine ⟨h1, h2, h3, ?_⟩
  rw [h1, h2, h3]
  norm_num

/-- C2: refuted by the code.  A non-transient non-200 status such as 404
reaches `r.raise_for_status()`, but the HTTPError it raises is a
`requests.RequestException` and is caught by the `except` clause of the same
loop iteration, so the fetcher sleeps and retries instead of raising
immediately: with responses [404, 200] it sleeps once and returns the 200
payload, and with a permanent 404 it sleeps on all 8 attempts and only then
fails with the RuntimeError of line 47. -/
theorem C2_fatal_status_retried_not_raised :
    safe_request (fun i => if i == 0 then Resp.status 404 "" else Resp.status 200 "ok")
        (fun _ => 1) 8 2
      = (FetchResult.success "ok", [1])
    ∧ safe_request (fun _ => Resp.status 404 "") (fun _ => 1) 8 2
      = (FetchResult.exhausted, [1, 2, 4, 8, 16, 32, 64, 128]) := by
  constructor
  · simp [safe_request, safeRequestGo, transientStatus, raisesForStatus, waitTime]
  · simp [safe_request, safeRequestGo, transientStatus, raisesForStatus, waitTime]
    norm_num

/-- C6: with the simulated responses [503, 503, 200], `safe_request` returns
the 200 payload and sleeps exactly twice, on attempt `i` for
`max(1.0, backoff^i * jitter_i)` where the jitter lies in [0.5, 1.5]; each
wait is at least 1. -/
theorem C6_transient_backoff_retry (payload : String) (jit : ℕ → ℚ) (b : ℚ)
    (h0l : 1/2 ≤ jit 0) (h0u : jit 0 ≤ 3/2) (h1l : 1/2 ≤ jit 1) (h1u : jit 1 ≤ 3/2) :
    safe_request (fun i => if i < 2 then Resp.status 503 "" else Resp.status 200 payload)
        jit 8 b
      = (FetchResult.success payload, [max 1 (b ^ 0 * jit 0), max 1 (b ^ 1 * jit 1)])
    ∧ ∀ w ∈ (safe_request
          (fun i => if i < 2 then Resp.status 503 "" else Resp.status 200 payload) jit 8 b).2,
        1 ≤ w := by
  have h : safe_request
        (fun i => if i < 2 then Resp.status 503 "" else Resp.status 200 payload) jit 8 b
      = (FetchResult.success payload, [max 1 (b ^ 0 * jit 0), max 1 (b ^ 1 * jit 1)]) := rfl
  refine ⟨h, ?_⟩
  rw [h]
  intro w hw
  rcases List.mem_cons.mp hw with rfl | hw2
  · exact le_max_left _ _
  rcases List.mem_cons.mp hw2 with rfl | hw3
  · exact le_max_left _ _
  · cases hw3

/-- Witness for C6: backoff 2, jitter constantly 1, payload "ok". -/
theorem C6_transient_backoff_retry_witness :
    ((1:ℚ)/2 ≤ 1 ∧ (1:ℚ) ≤ 3/2)
    ∧ safe_request (fun i => if i < 2 then Resp.status 503 "" else Resp.status 200 "ok")
        (fun _ => 1) 8 2
      = (FetchResult.success "ok", [max 1 ((2:ℚ) ^ 0 * 1), max 1 ((2:ℚ) ^ 1 * 1)]) :=
  ⟨⟨by norm_num, by norm_num⟩,
    (C6_transient_backoff_retry "ok" (fun _ => 1) 2
      (by norm_num) (by norm_num) (by norm_num) (by norm_num)).1⟩

/-- C5: per asset, in frame order, daily_return at position k equals
price[k]/price[k-1] - 1 for k > 0 (the lag never crosses assets) and is the
defined value 0 at k = 0, and pct_change is daily_return * 100. -/
theorem C5_daily_return_and_pct_change (df : List PriceRow) (c : String) (k : ℕ)
    (hk : k < (assetRows df c).length) :
    ((assetRows df c).getD k mrDefault).daily_return
      = (if k = 0 then 0
         else (assetPrices df c).getD k 0 / (assetPrices df c).getD (k - 1) 0 - 1)
    ∧ ((assetRows df c).getD k mrDefault).pct_change
      = ((assetRows df c).getD k mrDefault).daily_return * 100 :=
  ⟨assetRows_daily_return df c k hk, assetRows_pct_change df c k hk⟩

/-- Witness for C5 on the sample frame at k = 1. -/
theorem C5_daily_return_and_pct_change_witness :
    1 < (assetRows dfA "a").length
    ∧ (((assetRows dfA "a").getD 1 mrDefault).daily_return
        = (if (1:ℕ) = 0 then 0
           else (assetPrices dfA "a").getD 1 0 / (assetPrices dfA "a").getD (1 - 1) 0 - 1)
      ∧ ((assetRows dfA "a").getD 1 mrDefault).pct_change
        = ((assetRows dfA "a").getD 1 mrDefault).daily_return * 100) :=
  ⟨by decide, C5_daily_return_and_pct_change dfA "a" 1 (by decide)⟩

/-- C9: per asset, rolling_max_price at position k is an upper bound of the
asset prices at positions 0..k and is attained by one of them (it is their
maximum), and it is non-decreasing along the asset series. -/
theorem C9_rolling_max_is_running_maximum (df : List PriceRow) (c : String) (k : ℕ)
    (hk : k < (assetRows df c).length) :
    (∀ j, j ≤ k →
      (assetPrices df c).getD j 0 ≤ ((assetRows df c).getD k mrDefault).rolling_max_price)
    ∧ (∃ j, j ≤ k
        ∧ ((assetRows df c).getD k mrDefault).rolling_max_price = (assetPrices df c).getD j 0)
    ∧ (k + 1 < (assetRows df c).length →
        ((assetRows df c).getD k mrDefault).rolling_max_price
          ≤ ((assetRows df c).getD (k + 1) mrDefault).rolling_max_price) := by
  have hk' : k < (assetPrices df c).length := by rw [← assetRows_length df c]; exact hk
  rw [assetRows_rolling_max df c k hk]
  refine ⟨?_, ?_, ?_⟩
  · intro j hj
    rcases Nat.lt_or_ge j k with hlt | hge
    · exact le_foldMax_of_mem _ (getD_mem_take hlt (lt_trans hlt hk'))
    · have hjk : j = k := Nat.le_antisymm hj hge
      subst hjk
      exact le_foldMax_init _ _
  · rcases foldMax_mem_or_init ((assetPrices df c).getD k 0) ((assetPrices df c).take k)
        with h | h
    · exact ⟨k, le_refl k, h⟩
    · obtain ⟨j, hj⟩ := List.mem_iff_getElem?.mp h
      have hjlen : j < ((assetPrices df c).take k).length := by
        by_contra hge
        rw [List.getElem?_eq_none (Nat.le_of_not_lt hge)] at hj
        cases hj
      have hjk : j < k := by
        have := List.length_take k (assetPrices df c)
        omega
      refine ⟨j, le_of_lt hjk, ?_⟩
      rw [List.getElem?_take_of_lt hjk] at hj
      simp only [List.getD_eq_getElem?_getD, hj]
      rfl
  · intro hk1
    rw [assetRows_rolling_max df c (k + 1) hk1]
    have hfirst : (assetPrices df c).getD k 0
        ≤ foldMax ((assetPrices df c).getD (k + 1) 0) ((assetPrices df c).take (k + 1)) :=
      le_foldMax_of_mem _ (getD_mem_take (Nat.lt_succ_self k) hk')
    refine foldMax_le hfirst ?_
    intro x hx
    exact le_foldMax_of_mem _ (mem_take_succ_of_mem_take hx)

/-- Witness for C9 on the sample frame at k = 1 (the monotone part is then
exercised at k + 1 = 2). -/
theorem C9_rolling_max_is_running_maximum_witness :
    1 < (assetRows dfA "a").length
    ∧ ((∀ j, j ≤ 1 →
          (assetPrices dfA "a").getD j 0 ≤ ((assetRows dfA "a").getD 1 mrDefault).rolling_max_price)
      ∧ (∃ j, j ≤ 1
          ∧ ((assetRows dfA "a").getD 1 mrDefault).rolling_max_price
              = (assetPrices dfA "a").getD j 0)
      ∧ (1 + 1 < (assetRows dfA "a").length →
          ((assetRows dfA "a").getD 1 mrDefault).rolling_max_price
            ≤ ((assetRows dfA "a").getD (1 + 1) mrDefault).rolling_max_price)) :=
  ⟨by decide, C9_rolling_max_is_running_maximum dfA "a" 1 (by decide)⟩

/-- C3 counterexample: the claim says cum_return[0] is the defined numeric
value 0, but the code computes cum_return before the `fillna` of lines
148-149 and never fills it, so the first row of an asset carries NaN
(`none`), not 0: on a one-row frame the only cum_return is NaN. -/
theorem C3_counterexample_first_cum_return_is_nan :
    ((compute_metrics [⟨0, "a", "usd", 10⟩]).getD 0 mrDefault).cum_return ≠ some 0 := by
  simp [compute_metrics, computeMetricsGo, computeOne, assetCols, cumReturn]

/-- C3 amended: per asset, cum_return at the first position is NaN (none)
rather than 0, and at every later position k it equals the product over
j = 1..k of (1 + daily_return[j]) minus 1 (the NaN first factor is skipped
by the pandas cumprod, which is equivalent to a first factor of 1). -/
theorem C3_cum_return_compounds_after_first (df : List PriceRow) (c : String) (k : ℕ)
    (hk : k < (assetRows df c).length) :
    ((assetRows df c).getD 0 mrDefault).cum_return = none
    ∧ (0 < k →
        ((assetRows df c).getD k mrDefault).cum_return
          = some (((List.range k).map
              (fun j => 1 + ((assetRows df c).getD (j + 1) mrDefault).daily_return)).prod - 1)) := by
  constructor
  · have h0 : 0 < (assetRows df c).length := Nat.lt_of_le_of_lt (Nat.zero_le k) hk
    rw [assetRows_cum_return df c 0 h0]
    simp
  · intro hpos
    exact assetRows_cum_return_prod df c k hk hpos

/-- Witness for the amended C3 on the sample frame at k = 2. -/
theorem C3_cum_return_compounds_after_first_witness :
    2 < (assetRows dfA "a").length
    ∧ (((assetRows dfA "a").getD 0 mrDefault).cum_return = none
      ∧ (0 < 2 →
          ((assetRows dfA "a").getD 2 mrDefault).cum_return
            = some (((List.range 2).map
                (fun j => 1 + ((assetRows dfA "a").getD (j + 1) mrDefault).daily_return)).prod - 1))) :=
  ⟨by decide, C3_cum_return_compounds_after_first dfA "a" 2 (by decide)⟩

/-- C4 counterexample: two source points (timestamps 0 and 1 ms, prices 1
and 2) truncate to the same date 0.  The claim says the LAST occurrence
(price 2) is kept, but `drop_duplicates` runs with its default
`keep="first"`, so the code keeps price 1. -/
theorem C4_counterexample_keeps_first_not_last :
    fetch_market_chart "btc" "usd" [(0, 1), (1, 2)] = [PriceRow.mk 0 "btc" "usd" 1]
    ∧ PriceRow.mk 0 "btc" "usd" (1 : ℚ) ≠ PriceRow.mk 0 "btc" "usd" 2 := by
  constructor
  · simp [fetch_market_chart, msPerDay, keepFirstBy, keepFirstByGo, List.insertionSort,
      List.orderedInsert, rowLE]
  · simp only [ne_eq, PriceRow.mk.injEq, not_and]
    intro _ _ _
    norm_num

/-- C4 amended: with source points in ascending timestamp order (as the
market-chart endpoint serves them), for every calendar date the output of
`fetch_market_chart` has exactly one row per occurring date, built from the
FIRST source pair that truncates to that date (pandas `drop_duplicates`
default `keep="first"`), and no row for a date that does not occur. -/
theorem C4_dedup_keeps_first_per_date (coin_id vs_currency : String)
    (pricePairs : List (ℕ × ℚ)) (hts : pricePairs.Pairwise (fun a b => a.1 ≤ b.1)) (d : ℕ) :
    (fetch_market_chart coin_id vs_currency pricePairs).filter (fun r => decide (r.date = d))
      = ((pricePairs.filter (fun pr => decide (pr.1 / msPerDay = d))).take 1).map
          (fun pr => PriceRow.mk (pr.1 / msPerDay) coin_id vs_currency pr.2) := by
  by_cases he : pricePairs.isEmpty = true
  · have : pricePairs = [] := List.isEmpty_iff.mp he
    subst this
    simp [fetch_market_chart]
  · have hdf : List.Sorted rowLE
        (pricePairs.map (fun pr => PriceRow.mk (pr.1 / msPerDay) coin_id vs_currency pr.2)) := by
      refine List.Pairwise.map _ ?_ hts
      intro a b hab
      exact Or.inr ⟨rfl, Nat.div_le_div_right hab⟩
    have hsorted := List.Sorted.insertionSort_eq hdf
    simp only [fetch_market_chart, if_neg he]
    rw [hsorted]
    have hstep1 : (keepFirstBy (fun r => (r.coin_id, r.date))
          (pricePairs.map (fun pr => PriceRow.mk (pr.1 / msPerDay) coin_id vs_currency pr.2))).filter
            (fun r => decide (r.date = d))
        = (keepFirstBy (fun r => (r.coin_id, r.date))
            (pricePairs.map (fun pr => PriceRow.mk (pr.1 / msPerDay) coin_id vs_currency pr.2))).filter
              (fun r => decide ((r.coin_id, r.date) = (coin_id, d))) := by
      refine List.filter_congr ?_
      intro x hx
      have hx2 := keepFirstBy_subset (fun r => (r.coin_id, r.date)) _ x hx
      obtain ⟨pr, _, rfl⟩ := List.mem_map.mp hx2
      simp [Prod.mk.injEq]
    rw [hstep1, keepFirstBy_filter]
    have hstep2 : (pricePairs.map
            (fun pr => PriceRow.mk (pr.1 / msPerDay) coin_id vs_currency pr.2)).filter
          (fun r => decide ((fun r : PriceRow => (r.coin_id, r.date)) r = (coin_id, d)))
        = (pricePairs.map
            (fun pr => PriceRow.mk (pr.1 / msPerDay) coin_id vs_currency pr.2)).filter
          (fun r => decide (r.date = d)) := by
      refine List.filter_congr ?_
      intro x hx
      obtain ⟨pr, _, rfl⟩ := List.mem_map.mp hx
      simp [Prod.mk.injEq]
    rw [hstep2, List.filter_map, ← List.map_take]
    rfl

/-- Witness for the amended C4: both dates occur and keep their first price. -/
theorem C4_dedup_keeps_first_per_date_witness :
    ([( (0:ℕ), (1:ℚ)), (1, 2), (86400000, 3)].Pairwise (fun a b => a.1 ≤ b.1))
    ∧ (fetch_market_chart "btc" "usd" [(0, 1), (1, 2), (86400000, 3)]).filter
        (fun r => decide (r.date = 0))
      = (([((0:ℕ), (1:ℚ)), (1, 2), (86400000, 3)].filter
            (fun pr => decide (pr.1 / msPerDay = 0))).take 1).map
          (fun pr => PriceRow.mk (pr.1 / msPerDay) "btc" "usd" pr.2) :=
  ⟨by decide,
    C4_dedup_keeps_first_per_date "btc" "usd" [(0, 1), (1, 2), (86400000, 3)] (by decide) 0⟩

/-- C7: when the remote lookup raises, `fetch_coin_metadata` does not raise
(the model is total on the error case) and, for distinct requested ids, the
returned frame has exactly one row for each requested id: the first
persisted row for that id when the snapshot has one (persisted beats
synthesized on conflict), otherwise the synthesized record of `fallbackRow`
(symbol = first four letters of the id uppercased, name = humanized id,
rank NaN). -/
theorem C7_metadata_fallback_prefers_persisted (coin_ids : List String)
    (snapshot : Option (List MetaRow)) (c : String) (hnd : coin_ids.Nodup) (hc : c ∈ coin_ids)
    (hmiss : match snapshot with
      | none => True
      | some old => ∃ c2 ∈ coin_ids, ∀ r ∈ old, r.coin_id ≠ c2) :
    ((fetch_coin_metadata coin_ids snapshot (Except.error ())).1).filter
        (fun r => decide (r.coin_id = c))
      = ((snapshot.getD []).filter (fun r => decide (r.coin_id = c))
          ++ [fallbackRow c]).take 1 := by
  have hcomp : ((fun r : MetaRow => decide (r.coin_id = c)) ∘ fallbackRow)
      = (fun x : String => decide (x = c)) := rfl
  cases snapshot with
  | none =>
    simp only [fetch_coin_metadata, fetchCoinMetadataNet, Option.getD, fallback_meta_from_ids]
    rw [List.filter_map, hcomp, filter_eq_self_singleton hnd hc]
    simp
  | some old =>
    obtain ⟨c2, hc2, hmiss2⟩ := hmiss
    have hall : (coin_ids.all (fun x => old.any (fun r => decide (r.coin_id = x)))) = false := by
      rw [List.all_eq_false]
      refine ⟨c2, hc2, ?_⟩
      simp only [List.any_eq_true, decide_eq_true_eq, not_exists, not_and]
      intro r hr
      exact hmiss2 r hr
    simp only [fetch_coin_metadata, hall, Bool.false_eq_true, if_false, fetchCoinMetadataNet]
    rw [keepFirstBy_filter, List.filter_append, fallback_meta_from_ids, List.filter_map,
      hcomp, filter_eq_self_singleton hnd hc]
    simp

/-- Witness for C7: one requested id, a snapshot that lacks it. -/
theorem C7_metadata_fallback_prefers_persisted_witness :
    (["bitcoin"].Nodup ∧ "bitcoin" ∈ ["bitcoin"])
    ∧ ((fetch_coin_metadata ["bitcoin"]
          (some [MetaRow.mk "ethereum" "eth" "Ethereum" (some 2)]) (Except.error ())).1).filter
        (fun r => decide (r.coin_id = "bitcoin"))
      = (((some [MetaRow.mk "ethereum" "eth" "Ethereum" (some 2)]).getD []).filter
            (fun r => decide (r.coin_id = "bitcoin"))
          ++ [fallbackRow "bitcoin"]).take 1 :=
  ⟨⟨by decide, by decide⟩,
    C7_metadata_fallback_prefers_persisted ["bitcoin"]
      (some [MetaRow.mk "ethereum" "eth" "Ethereum" (some 2)]) "bitcoin"
      (by decide) (by decide) (by decide)⟩

/-- C8: when META_CSV is readable and already covers every requested id,
`fetch_coin_metadata` returns it unchanged and the network flag stays
false (lines 63-69 return before any request is issued). -/
theorem C8_cache_hit_no_network (coin_ids : List String) (old : List MetaRow)
    (apiResult : Except Unit (List ApiMarketRow))
    (h : ∀ c ∈ coin_ids, ∃ r ∈ old, r.coin_id = c) :
    fetch_coin_metadata coin_ids (some old) apiResult = (old, false) := by
  have hall : (coin_ids.all (fun c => old.any (fun r => decide (r.coin_id = c)))) = true := by
    rw [List.all_eq_true]
    intro c hcm
    obtain ⟨r, hr, he⟩ := h c hcm
    rw [List.any_eq_true]
    exact ⟨r, hr, by simp [he]⟩
  simp only [fetch_coin_metadata, hall, if_true]

/-- Witness for C8: a snapshot covering the single requested id is returned
unchanged with no network call even though the fetcher would fail. -/
theorem C8_cache_hit_no_network_witness :
    (∀ c ∈ ["btc"], ∃ r ∈ [MetaRow.mk "btc" "BTC" "Bitcoin" (some 1)], r.coin_id = c)
    ∧ fetch_coin_metadata ["btc"] (some [MetaRow.mk "btc" "BTC" "Bitcoin" (some 1)])
        (Except.error ())
      = ([MetaRow.mk "btc" "BTC" "Bitcoin" (some 1)], false) :=
  ⟨by decide,
    C8_cache_hit_no_network ["btc"] [MetaRow.mk "btc" "BTC" "Bitcoin" (some 1)]
      (Except.error ()) (by decide)⟩

end CryptoETL
